import Mathlib

/-!
# Verification of the classias training core

A shallow embedding of the training engine for log-linear classifiers
(binary logistic regression via `trainer_logress` in
`include/classias/logress.h`, maximum-entropy / multi-candidate models via
`trainer_maxent` in `include/classias/maxent.h`, and the multinomial
logistic trainer in `include/classias/train/lbfgs/multi.h`), together with
the line parsers of the frontend (`frontend/train/multi.cpp`,
`frontend/train/attribute.cpp`).

Doubles are modelled as real numbers with `std::exp` / `std::log` mapped to
`Real.exp` / `Real.log`; numeric literals of the source keep their decimal
value.  Gradient and expectation buffers (`double *`) are modelled as
functions `ℕ → ℝ`, and the accumulation loops of the source become
`List.foldl` over the corresponding update steps.  A few collaborators of
the trainers live in headers that are not part of the source tree
(`evaluation.h`, `tokenize.h`, `classify/linear/multi.h`); definitions that
stand in for those carry a doc comment starting with `Modelled from the
spec:` and follow the spec's words.
-/

open Classical

/-! ## Numeric primitives -/

/-- `static_cast<double>(b)` for a C++ `bool`. -/
noncomputable def boolVal (b : Bool) : ℝ := if b then 1 else 0

/-- Score accumulation of `linear_binary_instance::operator()`
(`logress.h` lines 84-87): `m_score += m_model[key] * value`, starting from
`m_score = 0.`.  The instance's `inner_product` used by holdout evaluation
computes the same quantity (spec: "score = weight·features", duplicates
accumulate). -/
noncomputable def score (x : ℕ → ℝ) (fs : List (ℕ × ℝ)) : ℝ :=
  fs.foldl (fun s p => s + x p.1 * p.2) 0

/-- `linear_binary_instance::logistic_prob` (`logress.h` lines 94-97):
`(-100. < m_score ? (1. / (1. + std::exp(-m_score))) : 0.)`. -/
noncomputable def logistic_prob (s : ℝ) : ℝ :=
  if -100 < s then 1 / (1 + Real.exp (-s)) else 0

/-- The two-argument `linear_binary_instance::logistic_error`
(`logress.h` lines 112-126), returning the pair (`b - p`, `logp`) exactly
as the source computes it.  Note that the first branch of the source tests
`-100. < m_score` (score GREATER than -100) and then sets `p = 0.`. -/
noncomputable def logistic_error_logp (s : ℝ) (b : Bool) : ℝ × ℝ :=
  if -100 < s then
    (boolVal b - 0, boolVal b * s)
  else if 100 < s then
    (boolVal b - 1, (boolVal b - 1) * s)
  else
    (boolVal b - 1 / (1 + Real.exp (-s)),
     if b then Real.log (1 / (1 + Real.exp (-s)))
     else Real.log (1 - 1 / (1 + Real.exp (-s))))

/-- The probability that the source's two-argument `logistic_error`
subtracts from `static_cast<double>(b)`: the `p` of `logress.h`
lines 114-122. -/
noncomputable def logistic_error_p (s : ℝ) : ℝ :=
  if -100 < s then 0
  else if 100 < s then 1
  else 1 / (1 + Real.exp (-s))

/-- The probability assigned by the spec's saturated logistic:
score < -100 gives 0, score > 100 gives 1, otherwise `1/(1+e^(-score))`.
This definition follows the spec's words, to be compared with the
probability the source's `logistic_error` actually uses. -/
noncomputable def spec_saturated_logistic (s : ℝ) : ℝ :=
  if s < -100 then 0
  else if 100 < s then 1
  else 1 / (1 + Real.exp (-s))

/-- `trainer_maxent::logsumexp` (`maxent.h` lines 372-387), with the
`int flag` argument (called with `i == 0`) modelled as a `Bool`.  The
source returns `y` when the flag is set, `x + 0.69314718055` when the
arguments are equal, the larger argument alone when the gap exceeds 50,
and otherwise `vmax + std::log(std::exp(vmin - vmax) + 1.0)`. -/
noncomputable def logsumexp (x y : ℝ) (flag : Bool) : ℝ :=
  if flag then y
  else if x = y then x + 0.69314718055
  else
    let vmin := if x < y then x else y
    let vmax := if x < y then y else x
    if vmin + 50 < vmax then vmax
    else vmax + Real.log (Real.exp (vmin - vmax) + 1.0)

/-! ## Buffer updates -/

/-- One `g[k] += v` update of a buffer. -/
noncomputable def addAt (g : ℕ → ℝ) (k : ℕ) (v : ℝ) : ℕ → ℝ :=
  fun j => if j = k then g j + v else g j

/-- Accumulate a list of (index, increment) pairs into a buffer, one
`g[k] += v` at a time (the shape of every `add` / gradient-update loop of
the trainers). -/
noncomputable def accumList (g : ℕ → ℝ) (l : List (ℕ × ℝ)) : ℕ → ℝ :=
  l.foldl (fun m p => addAt m p.1 p.2) g

/-- The number of elements of `l` satisfying `p` (used to state what the
tally loops of holdout evaluation count). -/
noncomputable def countIf {α : Type _} (l : List α) (p : α → Prop) : ℕ :=
  (l.map (fun a => if p a then 1 else 0)).sum

/-! ## The binary logistic trainer (`trainer_logress`, `logress.h`) -/

/-- A binary instance: a feature vector of (feature id, value) pairs, a
truth flag, a holdout group, and an instance weight. -/
structure BinInstance where
  features : List (ℕ × ℝ)
  truth : Bool
  group : ℤ
  weight : ℝ

/-- The per-instance body of `trainer_logress::lbfgs_evaluate`
(`logress.h` lines 271-326): skip instances of the holdout group;
otherwise compute `d` and `logp` through `logistic_error`, subtract
`get_weight() * logp` from the loss and run
`g[itf->first] -= itf->second * d * iti->get_weight()` over the
features.  The state is (loss, gradient buffer). -/
noncomputable def logress_step (holdout : ℤ) (x : ℕ → ℝ)
    (st : ℝ × (ℕ → ℝ)) (inst : BinInstance) : ℝ × (ℕ → ℝ) :=
  if inst.group = holdout then st
  else
    (st.1 - inst.weight * (logistic_error_logp (score x inst.features) inst.truth).2,
     accumList st.2 (inst.features.map (fun p =>
       (p.1, -(p.2 * (logistic_error_logp (score x inst.features) inst.truth).1 * inst.weight)))))

/-- The L2 block of `trainer_logress::lbfgs_evaluate` (`logress.h`
lines 328-336): when `m_c2 != 0.`, the loop
`for (i = m_regularization_start; i < n; ++i)` adds `c2 * x[i]` to `g[i]`
and accumulates `norm += x[i]*x[i]`, finishing with
`loss += c2 * norm * 0.5`. -/
noncomputable def logress_l2 (c2 : ℝ) (start n : ℕ) (x : ℕ → ℝ)
    (st : ℝ × (ℕ → ℝ)) : ℝ × (ℕ → ℝ) :=
  if c2 ≠ 0 then
    (st.1 + c2 * (∑ i ∈ Finset.Ico start n, x i * x i) * 0.5,
     fun j => if start ≤ j ∧ j < n then st.2 j + c2 * x j else st.2 j)
  else st

/-- `trainer_logress::lbfgs_evaluate` (`logress.h` lines 254-339): the
gradient buffer handed in by the solver is first zeroed on `[0, n)`, the
instance loop accumulates loss and gradient, and the L2 block finishes. -/
noncomputable def logress_lbfgs_evaluate (data : List BinInstance) (holdout : ℤ)
    (c2 : ℝ) (start n : ℕ) (x g0 : ℕ → ℝ) : ℝ × (ℕ → ℝ) :=
  logress_l2 c2 start n x
    (data.foldl (logress_step holdout x) (0, fun j => if j < n then 0 else g0 j))

/-- The regularization setup of `trainer_logress::train` (`logress.h`
lines 407-418), returning (c1, c2): L1 gives `(1/sigma, 0)`, L2 gives
`(0, 1/(sigma*sigma))`, anything else gives `(0, 0)`. -/
noncomputable def logress_train_config (regularization : String) (sigma : ℝ) : ℝ × ℝ :=
  if regularization = "L1" ∨ regularization = "l1" then (1.0 / sigma, 0)
  else if regularization = "L2" ∨ regularization = "l2" then (0, 1.0 / (sigma * sigma))
  else (0, 0)

/-- The return value of `trainer_logress::lbfgs_progress` (`logress.h`
lines 341-388) as a function of the configured maximum iteration count and
the reported iteration number: the source returns 0 unconditionally (its
iteration cap is passed to `lbfgs_solve` instead, line 438). -/
def logress_lbfgs_progress_return (_maxiter _k : ℤ) : ℤ := 0

/-- The reference-label index of `trainer_logress::holdout_evaluation`
(`logress.h` line 479): `rl = (iti->get_truth() ? 1 : 0)`. -/
def truth_idx (inst : BinInstance) : ℕ := if inst.truth then 1 else 0

/-- The model-label index of `trainer_logress::holdout_evaluation`
(`logress.h` line 480): `ml = (z <= 0. ? 0 : 1)` with
`z = iti->inner_product(m_weights)`. -/
noncomputable def pred_idx (x : ℕ → ℝ) (inst : BinInstance) : ℕ :=
  if score x inst.features ≤ 0 then 0 else 1

/-- The per-instance body of `trainer_logress::holdout_evaluation`
(`logress.h` lines 469-491): instances whose group differs from the
holdout group are skipped, every other instance increments the confusion
matrix cell `matrix(rl, ml)`. -/
noncomputable def logress_matrix_step (holdout : ℤ) (x : ℕ → ℝ)
    (m : ℕ → ℕ → ℕ) (inst : BinInstance) : ℕ → ℕ → ℕ :=
  if inst.group ≠ holdout then m
  else fun r l => if r = truth_idx inst ∧ l = pred_idx x inst then m r l + 1 else m r l

/-- The confusion matrix accumulated by
`trainer_logress::holdout_evaluation` over the data (the
`confusion_matrix` type itself lives in `evaluation.h`, outside the source
tree; only its cell counts are modelled). -/
noncomputable def logress_holdout_matrix (data : List BinInstance) (holdout : ℤ)
    (x : ℕ → ℝ) : ℕ → ℕ → ℕ :=
  data.foldl (logress_matrix_step holdout x) (fun _ _ => 0)

/-! ## The maximum entropy trainer (`trainer_maxent`, `maxent.h`) -/

/-- A candidate of a multi-candidate instance: feature vector, truth flag
and label id (set by the frontend's `read_line`). -/
structure Candidate where
  features : List (ℕ × ℝ)
  truth : Bool
  label : ℕ
deriving Inhabited

/-- A multi-candidate instance: its candidates and a holdout group. -/
structure MEInstance where
  cands : List Candidate
  group : ℤ

/-- The candidate scores of `trainer_maxent::lbfgs_evaluate`
(`maxent.h` line 169): `m_scores[i] = itc->inner_product(x)`. -/
noncomputable def scoresOf (x : ℕ → ℝ) (inst : MEInstance) : List ℝ :=
  inst.cands.map (fun c => score x c.features)

/-- The normalizer loop of `trainer_maxent::lbfgs_evaluate`
(`maxent.h` line 171): `norm = logsumexp(norm, m_scores[i], (i == 0))`
starting from `norm = 0.`. -/
noncomputable def normOf (ss : List ℝ) : ℝ :=
  (ss.foldl (fun (st : ℝ × Bool) s => (logsumexp st.1 s st.2, false)) (0, true)).1

/-- The `logp` accumulation of `trainer_maxent::lbfgs_evaluate`
(`maxent.h` line 170): `if (itc->is_true()) logp = m_scores[i]`, starting
from `logp = 0.` (the last true candidate wins). -/
noncomputable def logpOf (x : ℕ → ℝ) (inst : MEInstance) : ℝ :=
  inst.cands.foldl (fun lp c => if c.truth then score x c.features else lp) 0

/-- The per-instance body of `trainer_maxent::lbfgs_evaluate`
(`maxent.h` lines 157-181) on the state (model expectations, loss):
holdout instances are skipped; otherwise every candidate adds
`exp(score - norm) * value` into the model expectations
(`itc->add(m_mexps, std::exp(m_scores[i] - norm))`), and the loss
decreases by `logp - norm`. -/
noncomputable def maxent_step (holdout : ℤ) (x : ℕ → ℝ)
    (st : (ℕ → ℝ) × ℝ) (inst : MEInstance) : (ℕ → ℝ) × ℝ :=
  if inst.group = holdout then st
  else
    (inst.cands.foldl (fun m c =>
       accumList m (c.features.map (fun p =>
         (p.1, Real.exp (score x c.features - normOf (scoresOf x inst)) * p.2)))) st.1,
     st.2 - (logpOf x inst - normOf (scoresOf x inst)))

/-- The observation expectations computed by `trainer_maxent::train`
(`maxent.h` lines 289-308): for every instance not in the holdout group,
every true candidate adds its feature values
(`itc->add(m_oexps, 1.0)`, that is `m_oexps[k] += 1.0 * value`). -/
noncomputable def maxent_oexps (data : List MEInstance) (holdout : ℤ) : ℕ → ℝ :=
  data.foldl (fun m inst =>
    if inst.group = holdout then m
    else inst.cands.foldl (fun m2 c =>
      if c.truth then accumList m2 c.features else m2) m)
    (fun _ => 0)

/-- The L2 block of `trainer_maxent::lbfgs_evaluate` (`maxent.h`
lines 188-196): when `m_c2 != 0.`, the loop `for (i = 0; i < n; ++i)` adds
`c2 * x[i]` to `g[i]` and finishes with `loss += c2 * norm * 0.5`. -/
noncomputable def maxent_l2 (c2 : ℝ) (n : ℕ) (x : ℕ → ℝ)
    (st : ℝ × (ℕ → ℝ)) : ℝ × (ℕ → ℝ) :=
  if c2 ≠ 0 then
    (st.1 + c2 * (∑ i ∈ Finset.Ico 0 n, x i * x i) * 0.5,
     fun j => if j < n then st.2 j + c2 * x j else st.2 j)
  else st

/-- `trainer_maxent::lbfgs_evaluate` (`maxent.h` lines 140-199): the model
expectations are zeroed and recomputed, the gradient buffer is overwritten
wholesale by `g[i] = -(m_oexps[i] - m_mexps[i])` on `[0, n)`, and the L2
block finishes. -/
noncomputable def maxent_lbfgs_evaluate (data : List MEInstance) (holdout : ℤ)
    (c2 : ℝ) (n : ℕ) (x g0 : ℕ → ℝ) : ℝ × (ℕ → ℝ) :=
  let ml := data.foldl (maxent_step holdout x) ((fun _ => 0), 0)
  maxent_l2 c2 n x
    (ml.2, fun j => if j < n then -(maxent_oexps data holdout j - ml.1 j) else g0 j)

/-- The `regularization.l1=` branch of `trainer_maxent::set` (`maxent.h`
lines 117-120) on the state (c1, c2); `d` is the `std::atoi` result:
`m_c1 = (d <= 0.) ? 0. : 1.0 / d`, leaving `m_c2` untouched. -/
noncomputable def maxent_set_l1 (d : ℤ) (st : ℝ × ℝ) : ℝ × ℝ :=
  ((if d ≤ 0 then 0 else 1.0 / (d : ℝ)), st.2)

/-- The `regularization.l2=` branch of `trainer_maxent::set` (`maxent.h`
lines 121-124): `m_c2 = (d <= 0.) ? 0. : 1.0 / d`, leaving `m_c1`
untouched. -/
noncomputable def maxent_set_l2 (d : ℤ) (st : ℝ × ℝ) : ℝ × ℝ :=
  (st.1, if d ≤ 0 then 0 else 1.0 / (d : ℝ))

/-- `trainer_maxent::set` restricted to its effect on (c1, c2)
(`maxent.h` lines 113-133); `parse_param` is the leading-substring match of
lines 103-111, and `atoi` abstracts `std::atoi`. -/
noncomputable def maxent_set (atoi : String → ℤ) (param : String) (st : ℝ × ℝ) : ℝ × ℝ :=
  if param.startsWith "regularization.l1=" then
    maxent_set_l1 (atoi (param.drop "regularization.l1=".length)) st
  else if param.startsWith "regularization.l2=" then
    maxent_set_l2 (atoi (param.drop "regularization.l2=".length)) st
  else st

/-- The return value of `trainer_maxent::lbfgs_progress` (`maxent.h`
lines 201-253): `if (m_maxiter < k) return 1;` followed by `return 0;`. -/
def maxent_lbfgs_progress_return (maxiter k : ℤ) : ℤ :=
  if maxiter < k then 1 else 0

/-- The value of the C constant `DBL_MAX` used as the score sentinel of
`trainer_maxent::holdout_evaluation` (`maxent.h` line 343). -/
noncomputable def DBL_MAX : ℝ := 1.7976931348623157e308

/-- One step of the argmax loop of `trainer_maxent::holdout_evaluation`
(`maxent.h` lines 346-354) on the state (score_max, itc_max, next index):
the best candidate is updated only on a strict increase
(`if (score_max < score)`). -/
noncomputable def argmax_step (st : ℝ × Option ℕ × ℕ) (s : ℝ) : ℝ × Option ℕ × ℕ :=
  if st.1 < s then (s, some st.2.2, st.2.2 + 1) else (st.1, st.2.1, st.2.2 + 1)

/-- Recursive form of the argmax loop (used to reason about
`maxent_predict`): carries the running max `m`, the best index so far `b`
and the index `k` of the next element. -/
noncomputable def amRec : ℝ → Option ℕ → ℕ → List ℝ → Option ℕ
  | _, b, _, [] => b
  | m, b, k, s :: t => if m < s then amRec s (some k) (k + 1) t else amRec m b (k + 1) t

/-- The candidate selected by the argmax loop of
`trainer_maxent::holdout_evaluation` (`maxent.h` lines 342-354):
`score_max` starts at `-DBL_MAX` and `itc_max` at the end iterator
(modelled as `none`). -/
noncomputable def maxent_predict (x : ℕ → ℝ) (inst : MEInstance) : Option ℕ :=
  ((scoresOf x inst).foldl argmax_step (-DBL_MAX, none, 0)).2.1

/-- The per-instance body of `trainer_maxent::holdout_evaluation`
(`maxent.h` lines 336-361) on the tally (num_correct, num_total):
instances outside the holdout group are skipped; otherwise
`itc_max->is_true()` is consulted — when the argmax loop never updated
`itc_max`, that dereferences the end iterator, modelled as `none`. -/
noncomputable def maxent_holdout_step (holdout : ℤ) (x : ℕ → ℝ)
    (st : Option (ℕ × ℕ)) (inst : MEInstance) : Option (ℕ × ℕ) :=
  if inst.group ≠ holdout then st
  else
    match st, maxent_predict x inst with
    | some (c, t), some j =>
        some ((if (inst.cands.getD j default).truth then c + 1 else c), t + 1)
    | _, _ => none

/-- The tally of `trainer_maxent::holdout_evaluation`
(`maxent.h` lines 329-369): `num_correct` and `num_total`, the only data
its accuracy report is computed from. -/
noncomputable def maxent_holdout_evaluation (data : List MEInstance) (holdout : ℤ)
    (x : ℕ → ℝ) : Option (ℕ × ℕ) :=
  data.foldl (maxent_holdout_step holdout x) (some (0, 0))

/-- Modelled from the spec: the reference label of a multi-candidate
instance, "exactly the truth-flagged candidate(s) are positive examples" —
the label of the (first) true candidate.  The spec's holdout evaluator
tallies "a confusion matrix over (true, predicted) label pairs"; no such
tally exists in `maxent.h`. -/
noncomputable def me_true_label (inst : MEInstance) : ℕ :=
  ((inst.cands.find? (fun c => c.truth)).map (fun c => c.label)).getD 0

/-- Modelled from the spec: the predicted label of a multi-candidate
instance, "argmax score for multi-candidate", read off from the source's
own argmax loop (`maxent_predict`). -/
noncomputable def me_pred_label (x : ℕ → ℝ) (inst : MEInstance) : ℕ :=
  match maxent_predict x inst with
  | some j => (inst.cands.getD j default).label
  | none => 0

/-- Modelled from the spec: the list of (true label, predicted label)
pairs over the holdout group, the data a confusion matrix and the
micro-averaged precision/recall/F1 of the spec's holdout evaluator are
functions of. -/
noncomputable def spec_confusion_pairs (data : List MEInstance) (holdout : ℤ)
    (x : ℕ → ℝ) : List (ℕ × ℕ) :=
  (data.filter (fun i => i.group == holdout)).map
    (fun i => (me_true_label i, me_pred_label x i))

/-! ## The multinomial logistic trainer (`trainer_lbfgs_multi`,
`train/lbfgs/multi.h`) -/

/-- An attribute-based instance: attribute vector, gold label, group. -/
structure MultiInstance where
  attrs : List (ℕ × ℝ)
  label : ℕ
  group : ℤ

/-- Modelled from the spec: the score of label `l` under the feature
generator (`classify/linear/multi.h` is not in the source tree) — "one
score per label over a shared attribute vector via the Feature Generator",
`fg` mapping an (attribute id, label id) pair to a feature id. -/
noncomputable def multi_score (fg : ℕ → ℕ → ℕ) (x : ℕ → ℝ)
    (attrs : List (ℕ × ℝ)) (l : ℕ) : ℝ :=
  (attrs.map (fun p => x (fg p.1 l) * p.2)).sum

/-- Modelled from the spec: the posterior probability of label `l` among
`L` labels, `exp(score - normalizer)` with a softmax normalizer. -/
noncomputable def multi_prob (fg : ℕ → ℕ → ℕ) (x : ℕ → ℝ)
    (attrs : List (ℕ × ℝ)) (L l : ℕ) : ℝ :=
  Real.exp (multi_score fg x attrs l) /
    ∑ k ∈ Finset.range L, Real.exp (multi_score fg x attrs k)

/-- `feature_generator.add_to(g, begin, end, l, scale)` as the pair list it
accumulates: `g[fg(a, l)] += scale * value` for every attribute. -/
noncomputable def fgPairs (fg : ℕ → ℕ → ℕ) (attrs : List (ℕ × ℝ))
    (l : ℕ) (scale : ℝ) : List (ℕ × ℝ) :=
  attrs.map (fun p => (fg p.1 l, scale * p.2))

/-- The observation expectations computed by `trainer_lbfgs_multi::train`
(`train/lbfgs/multi.h` lines 144-154): instances of the holdout group are
skipped, every other instance adds its attributes under its gold label
with scale 1.0. -/
noncomputable def multi_oexps (fg : ℕ → ℕ → ℕ) (data : List MultiInstance)
    (holdout : ℤ) : ℕ → ℝ :=
  data.foldl (fun m i =>
    if i.group = holdout then m
    else accumList m (fgPairs fg i.attrs i.label 1)) (fun _ => 0)

/-- The per-instance body of `trainer_lbfgs_multi::loss_and_gradient`
(`train/lbfgs/multi.h` lines 96-118) on the state (loss, gradient):
holdout instances are skipped; otherwise every label `l < L` adds the
attribute expansion scaled by `cls.prob(l)` into the gradient, and the
loss decreases by `log(cls.prob(label))`. -/
noncomputable def multi_step (fg : ℕ → ℕ → ℕ) (holdout : ℤ) (L : ℕ) (x : ℕ → ℝ)
    (st : ℝ × (ℕ → ℝ)) (i : MultiInstance) : ℝ × (ℕ → ℝ) :=
  if i.group = holdout then st
  else
    (st.1 - Real.log (multi_prob fg x i.attrs L i.label),
     (List.range L).foldl (fun m l =>
       accumList m (fgPairs fg i.attrs l (multi_prob fg x i.attrs L l))) st.2)

/-- `trainer_lbfgs_multi::loss_and_gradient` (`train/lbfgs/multi.h`
lines 76-121): the gradient buffer handed in by the solver is first
overwritten with `g[i] = -m_oexps[i]` on `[0, n)` (lines 90-93), then the
instance loop accumulates. -/
noncomputable def multi_loss_and_gradient (fg : ℕ → ℕ → ℕ)
    (data : List MultiInstance) (holdout : ℤ) (L n : ℕ) (x g0 : ℕ → ℝ) :
    ℝ × (ℕ → ℝ) :=
  data.foldl (multi_step fg holdout L x)
    (0, fun j => if j < n then -(multi_oexps fg data holdout j) else g0 j)

/-! ## The frontend line parsers -/

/-- The candidate recorded by `read_line` of `frontend/train/multi.cpp`:
truth flag, label (the full first token) and the (name, value) feature
pairs in input order. -/
structure ParsedCandidate where
  truth : Bool
  label : String
  features : List (String × ℝ)

/-- The instance data recorded by `read_line` of
`frontend/train/attribute.cpp`: label and (name, value) attribute pairs. -/
structure ParsedInstance where
  label : String
  attrs : List (String × ℝ)

/-- `read_line` of `frontend/train/multi.cpp` (lines 62-118) over the
tab-separated fields of the line (the `tokenizer` and `get_name_value` of
`tokenize.h` are not in the source tree; the fields arrive pre-split and
`gnv` abstracts the name:value split, per the spec's "already decoded"
input interface).  Errors: no field, an empty first token, or a first
token that does not begin with 'T' or 'F'; otherwise the candidate is
recorded, skipping empty feature tokens. -/
def read_line_multi (gnv : String → String × ℝ) (fields : List String) :
    Except String ParsedCandidate :=
  match fields with
  | [] => Except.error "no field found in the line"
  | tok :: rest =>
    if tok = "" then Except.error "an empty label found"
    else if tok.startsWith "T" then
      Except.ok ⟨true, tok, (rest.filter (fun s => !(s == ""))).map gnv⟩
    else if tok.startsWith "F" then
      Except.ok ⟨false, tok, (rest.filter (fun s => !(s == ""))).map gnv⟩
    else Except.error "a class label must begins with either T or F"

/-- `read_line` of `frontend/train/attribute.cpp` (lines 59-98): same
shape without the T/F class check. -/
def read_line_attribute (gnv : String → String × ℝ) (fields : List String) :
    Except String ParsedInstance :=
  match fields with
  | [] => Except.error "no field found in the line"
  | tok :: rest =>
    if tok = "" then Except.error "an empty label found"
    else Except.ok ⟨tok, (rest.filter (fun s => !(s == ""))).map gnv⟩

/-! ## Concrete data used by counterexamples and witnesses -/

/-- A true candidate of label 1 with no features (score 0). -/
def candT1 : Candidate := ⟨[], true, 1⟩

/-- A false candidate of label 0 with no features. -/
def candF0 : Candidate := ⟨[], false, 0⟩

/-- A false candidate of label 1 with no features. -/
def candF1 : Candidate := ⟨[], false, 1⟩

/-- A true candidate of label 0 with no features. -/
def candT0 : Candidate := ⟨[], true, 0⟩

/-- Instance predicted correctly (first candidate true, label 1). -/
def instTP : MEInstance := ⟨[candT1, candF0], 0⟩

/-- Instance predicted incorrectly: predicted label 1, true label 0. -/
def instFP : MEInstance := ⟨[candF1, candT0], 0⟩

/-- Instance predicted incorrectly: predicted label 0, true label 1. -/
def instFN : MEInstance := ⟨[candF0, candT1], 0⟩

/-- Holdout data with one correct and one false-positive instance. -/
def dataA : List MEInstance := [instTP, instFP]

/-- Holdout data with one correct and one false-negative instance. -/
def dataB : List MEInstance := [instTP, instFN]

/-- A single candidate whose inner product is `-DBL_MAX` when every weight
is `-DBL_MAX`. -/
def candNeg : Candidate := ⟨[(0, 1)], true, 0⟩

/-- A nonempty holdout instance on which the argmax loop never moves off
the end iterator. -/
def instNeg : MEInstance := ⟨[candNeg], 0⟩

/-- A one-candidate instance with score 0 (for witnesses). -/
def instW : MEInstance := ⟨[⟨[], true, 0⟩], 0⟩

/-! ## Helper lemmas about the buffer updates -/

theorem addAt_apply (g : ℕ → ℝ) (k : ℕ) (v : ℝ) (j : ℕ) :
    addAt g k v j = g j + if j = k then v else 0 := by
  by_cases h : j = k <;> simp [addAt, h]

theorem accumList_shift (l : List (ℕ × ℝ)) (g : ℕ → ℝ) (j : ℕ) :
    accumList g l j = g j + accumList (fun _ => 0) l j := by
  induction l generalizing g with
  | nil => simp [accumList]
  | cons p t ihl =>
    show accumList (addAt g p.1 p.2) t j = g j + accumList (addAt (fun _ => 0) p.1 p.2) t j
    rw [ihl (addAt g p.1 p.2), ihl (addAt (fun _ => 0) p.1 p.2), addAt_apply, addAt_apply]
    ring

theorem accumFold_shift {β : Type _} (l : List β) (P : β → List (ℕ × ℝ))
    (g : ℕ → ℝ) (j : ℕ) :
    (l.foldl (fun m b => accumList m (P b)) g) j
      = g j + (l.foldl (fun m b => accumList m (P b)) (fun _ => 0)) j := by
  induction l generalizing g with
  | nil => simp
  | cons b t ihl =>
    rw [List.foldl_cons, List.foldl_cons, ihl (accumList g (P b)),
      ihl (accumList (fun _ => 0) (P b)), accumList_shift (P b) g j]
    ring

theorem countIf_nil {α : Type _} (p : α → Prop) : countIf ([] : List α) p = 0 := by
  simp [countIf]

theorem countIf_cons {α : Type _} (a : α) (l : List α) (p : α → Prop) :
    countIf (a :: l) p = (if p a then 1 else 0) + countIf l p := by
  simp [countIf]

theorem foldl_eq_foldl_filter {α σ : Type _} (f : σ → α → σ) (q : α → Bool)
    (l : List α) (st : σ) (hskip : ∀ s a, q a = false → f s a = s) :
    l.foldl f st = (l.filter q).foldl f st := by
  induction l generalizing st with
  | nil => rfl
  | cons a t ihl =>
    cases hq : q a with
    | false =>
      rw [List.foldl_cons, hskip st a hq, List.filter_cons, if_neg (by simp [hq]), ihl]
    | true =>
      rw [List.filter_cons, if_pos (by simp [hq]), List.foldl_cons, List.foldl_cons, ihl]

/-! ## Decomposition of the evaluator folds -/

theorem logress_fold_decomp (data : List BinInstance) (holdout : ℤ) (x : ℕ → ℝ)
    (Lr : ℝ) (g : ℕ → ℝ) :
    (data.foldl (logress_step holdout x) (Lr, g)).1
        = Lr + (data.foldl (logress_step holdout x) (0, fun _ => 0)).1
      ∧ ∀ j, (data.foldl (logress_step holdout x) (Lr, g)).2 j
        = g j + (data.foldl (logress_step holdout x) (0, fun _ => 0)).2 j := by
  induction data generalizing Lr g with
  | nil => exact ⟨by simp, fun j => by simp⟩
  | cons i t ih =>
    by_cases hg : i.group = holdout
    · simp only [List.foldl_cons, logress_step, if_pos hg]
      exact ih Lr g
    · simp only [List.foldl_cons, logress_step, if_neg hg]
      set wl := i.weight * (logistic_error_logp (score x i.features) i.truth).2 with hwl
      set P := i.features.map (fun p =>
        (p.1, -(p.2 * (logistic_error_logp (score x i.features) i.truth).1 * i.weight))) with hP
      constructor
      · rw [(ih (Lr - wl) (accumList g P)).1, (ih (0 - wl) (accumList (fun _ => 0) P)).1]
        ring
      · intro j
        rw [(ih (Lr - wl) (accumList g P)).2 j, (ih (0 - wl) (accumList (fun _ => 0) P)).2 j,
          accumList_shift P g j]
        ring

theorem multi_fold_decomp (fg : ℕ → ℕ → ℕ) (data : List MultiInstance) (holdout : ℤ)
    (L : ℕ) (x : ℕ → ℝ) (Lr : ℝ) (g : ℕ → ℝ) :
    (data.foldl (multi_step fg holdout L x) (Lr, g)).1
        = Lr + (data.foldl (multi_step fg holdout L x) (0, fun _ => 0)).1
      ∧ ∀ j, (data.foldl (multi_step fg holdout L x) (Lr, g)).2 j
        = g j + (data.foldl (multi_step fg holdout L x) (0, fun _ => 0)).2 j := by
  induction data generalizing Lr g with
  | nil => exact ⟨by simp, fun j => by simp⟩
  | cons i t ih =>
    by_cases hg : i.group = holdout
    · simp only [List.foldl_cons, multi_step, if_pos hg]
      exact ih Lr g
    · simp only [List.foldl_cons, multi_step, if_neg hg]
      set wl := Real.log (multi_prob fg x i.attrs L i.label) with hwl
      set F := fun (m : ℕ → ℝ) (l : ℕ) =>
        accumList m (fgPairs fg i.attrs l (multi_prob fg x i.attrs L l)) with hF
      constructor
      · rw [(ih (Lr - wl) ((List.range L).foldl F g)).1,
          (ih (0 - wl) ((List.range L).foldl F (fun _ => 0))).1]
        ring
      · intro j
        rw [(ih (Lr - wl) ((List.range L).foldl F g)).2 j,
          (ih (0 - wl) ((List.range L).foldl F (fun _ => 0))).2 j,
          accumFold_shift (List.range L)
            (fun l => fgPairs fg i.attrs l (multi_prob fg x i.attrs L l)) g j]
        ring

/-! ## The argmax loop of maxent holdout evaluation -/

theorem foldl_argmax_eq (t : List ℝ) (m : ℝ) (b : Option ℕ) (k : ℕ) :
    ((t.foldl argmax_step (m, b, k)).2).1 = amRec m b k t := by
  induction t generalizing m b k with
  | nil => rfl
  | cons s r ihr =>
    rw [List.foldl_cons]
    by_cases h : m < s
    · simp only [amRec, if_pos h, argmax_step]
      simpa [h] using ihr s (some k) (k + 1)
    · simp only [amRec, if_neg h, argmax_step]
      simpa [h] using ihr m b (k + 1)

theorem amRec_none (t : List ℝ) : ∀ (m : ℝ) (b : Option ℕ) (k : ℕ),
    (∀ s ∈ t, ¬ m < s) → amRec m b k t = b := by
  induction t with
  | nil => intro m b k _; rfl
  | cons s r ihr =>
    intro m b k h
    simp only [amRec, if_neg (h s (List.mem_cons_self s r))]
    exact ihr m b (k + 1) (fun s2 hs2 => h s2 (List.mem_cons_of_mem _ hs2))

theorem amRec_first_argmax (t : List ℝ) : ∀ (m : ℝ) (b : Option ℕ) (k : ℕ),
    (∃ s ∈ t, m < s) →
    ∃ j, j < t.length ∧ amRec m b k t = some (k + j) ∧ m < t.getD j 0 ∧
      (∀ i, i < t.length → t.getD i 0 ≤ t.getD j 0) ∧
      (∀ i, i < j → t.getD i 0 < t.getD j 0) := by
  induction t with
  | nil => intro m b k h; simp at h
  | cons s r ihr =>
    intro m b k h
    by_cases hms : m < s
    · by_cases hex : ∃ s2 ∈ r, s < s2
      · obtain ⟨j2, hj2len, heq, hlt, hmax, hfst⟩ := ihr s (some k) (k + 1) hex
        refine ⟨j2 + 1, by simpa using Nat.succ_lt_succ hj2len, ?_, ?_, ?_, ?_⟩
        · simp only [amRec, if_pos hms, heq]
          congr 1
          omega
        · simpa [List.getD_cons_succ] using lt_trans hms hlt
        · intro i hi
          cases i with
          | zero =>
            simpa [List.getD_cons_succ, List.getD_cons_zero] using le_of_lt hlt
          | succ i2 =>
            simp only [List.getD_cons_succ]
            exact hmax i2 (by simpa using hi)
        · intro i hi
          cases i with
          | zero =>
            simpa [List.getD_cons_succ, List.getD_cons_zero] using hlt
          | succ i2 =>
            simp only [List.getD_cons_succ]
            exact hfst i2 (by omega)
      · push_neg at hex
        refine ⟨0, by simp, ?_, by simpa using hms, ?_, by intro i hi; omega⟩
        · simp only [amRec, if_pos hms]
          rw [amRec_none r s (some k) (k + 1) (fun s2 hs2 => not_lt.mpr (hex s2 hs2))]
          simp
        · intro i hi
          cases i with
          | zero => simp
          | succ i2 =>
            simp only [List.getD_cons_succ, List.getD_cons_zero]
            have hi2 : i2 < r.length := by simpa using hi
            have hmem : r.getD i2 0 ∈ r := by
              rw [List.getD_eq_getElem r 0 hi2]
              exact List.getElem_mem hi2
            exact hex _ hmem
    · have hex : ∃ s2 ∈ r, m < s2 := by
        obtain ⟨s2, hs2, hlt2⟩ := h
        rcases List.mem_cons.mp hs2 with rfl | hmem
        · exact absurd hlt2 hms
        · exact ⟨s2, hmem, hlt2⟩
      obtain ⟨j2, hj2len, heq, hlt, hmax, hfst⟩ := ihr m b (k + 1) hex
      refine ⟨j2 + 1, by simpa using Nat.succ_lt_succ hj2len, ?_, ?_, ?_, ?_⟩
      · simp only [amRec, if_neg hms, heq]
        congr 1
        omega
      · simpa [List.getD_cons_succ] using hlt
      · intro i hi
        cases i with
        | zero =>
          simp only [List.getD_cons_succ, List.getD_cons_zero]
          exact le_of_lt (lt_of_le_of_lt (not_lt.mp hms) hlt)
        | succ i2 =>
          simp only [List.getD_cons_succ]
          exact hmax i2 (by simpa using hi)
      · intro i hi
        cases i with
        | zero =>
          simp only [List.getD_cons_succ, List.getD_cons_zero]
          exact lt_of_le_of_lt (not_lt.mp hms) hlt
        | succ i2 =>
          simp only [List.getD_cons_succ]
          exact hfst i2 (by omega)

theorem maxent_predict_some (x : ℕ → ℝ) (inst : MEInstance)
    (h : ∃ s ∈ scoresOf x inst, -DBL_MAX < s) :
    ∃ j, maxent_predict x inst = some j := by
  obtain ⟨j, _, heq, _, _, _⟩ := amRec_first_argmax (scoresOf x inst) (-DBL_MAX) none 0 h
  exact ⟨0 + j, by rw [maxent_predict, foldl_argmax_eq, heq]⟩

/-! ## Tally characterizations of holdout evaluation -/

theorem logress_matrix_fold (holdout : ℤ) (x : ℕ → ℝ) (data : List BinInstance) :
    ∀ (m : ℕ → ℕ → ℕ) (r l : ℕ),
    (data.foldl (logress_matrix_step holdout x) m) r l
      = m r l + countIf data (fun i => i.group = holdout ∧ truth_idx i = r ∧ pred_idx x i = l) := by
  induction data with
  | nil => intro m r l; simp [countIf]
  | cons i t iht =>
    intro m r l
    rw [List.foldl_cons, iht, countIf_cons]
    by_cases hg : i.group = holdout
    · rw [logress_matrix_step, if_neg (by simp [hg])]
      by_cases hr : truth_idx i = r
      · by_cases hl : pred_idx x i = l
        · rw [if_pos ⟨hr.symm, hl.symm⟩, if_pos ⟨hg, hr, hl⟩]
          ring
        · rw [if_neg (fun hc => hl (hc.2.symm)), if_neg (fun hc => hl hc.2.2)]
          ring
      · rw [if_neg (fun hc => hr (hc.1.symm)), if_neg (fun hc => hr hc.2.1)]
        ring
    · rw [logress_matrix_step, if_pos (by simp [hg]), if_neg (fun hc => hg hc.1)]
      ring

theorem maxent_tally_fold (x : ℕ → ℝ) (holdout : ℤ) (mdata : List MEInstance) :
    (∀ inst ∈ mdata, inst.group = holdout → ∃ j, maxent_predict x inst = some j) →
    ∀ c t : ℕ, ∃ c2 : ℕ,
      mdata.foldl (maxent_holdout_step holdout x) (some (c, t))
        = some (c + c2, t + countIf mdata (fun i => i.group = holdout)) := by
  induction mdata with
  | nil =>
    intro _ c t
    exact ⟨0, by simp [countIf]⟩
  | cons i m ihm =>
    intro hpred c t
    have hm : ∀ inst ∈ m, inst.group = holdout → ∃ j, maxent_predict x inst = some j :=
      fun inst hi => hpred inst (List.mem_cons_of_mem _ hi)
    rw [List.foldl_cons, countIf_cons]
    by_cases hg : i.group = holdout
    · obtain ⟨j, hj⟩ := hpred i (List.mem_cons_self _ _) hg
      have hstep : maxent_holdout_step holdout x (some (c, t)) i
          = some ((if (i.cands.getD j default).truth then c + 1 else c), t + 1) := by
        simp [maxent_holdout_step, hj, hg]
      rw [hstep, if_pos hg]
      by_cases ht : (i.cands.getD j default).truth
      · rw [if_pos ht]
        obtain ⟨c2, hc2⟩ := ihm hm (c + 1) (t + 1)
        refine ⟨1 + c2, ?_⟩
        rw [hc2]
        congr 2 <;> omega
      · rw [if_neg ht]
        obtain ⟨c2, hc2⟩ := ihm hm c (t + 1)
        refine ⟨c2, ?_⟩
        rw [hc2]
        congr 2
        omega
    · have hstep : maxent_holdout_step holdout x (some (c, t)) i = some (c, t) := by
        simp [maxent_holdout_step, hg]
      rw [hstep, if_neg hg]
      obtain ⟨c2, hc2⟩ := ihm hm c t
      exact ⟨c2, by rw [hc2]; congr 2; omega⟩

/-! ## Claim C1 -/

/-- C1: the claim states that the probability used by the binary logistic
evaluator is the saturated logistic (0 below -100, 1 above 100, the
sigmoid in between, hence 1/2 at score 0).  The code disagrees: the
saturation test of `logistic_error` is written `-100. < m_score`, so at
score 0 (and at any score above -100, e.g. 200) the code uses probability
0, error `truth - 0` and log-probability `truth * score`, while the spec's
saturated logistic gives 1/2 at score 0 (as the neighbouring
`logistic_prob` and the commented-out reference block of `lbfgs_evaluate`
do). -/
theorem C1_logistic_error_inverted_saturation :
    logistic_error_p 0 = 0 ∧
    logistic_error_logp 0 true = (1, 0) ∧
    logistic_error_p 200 = 0 ∧
    spec_saturated_logistic 0 = 1 / 2 ∧
    logistic_prob 0 = 1 / 2 := by
  have h0 : (-100 : ℝ) < 0 := by norm_num
  have h200 : (-100 : ℝ) < 200 := by norm_num
  have hexp : Real.exp (-(0 : ℝ)) = 1 := by
    rw [neg_zero, Real.exp_zero]
  refine ⟨?_, ?_, ?_, ?_, ?_⟩
  · simp [logistic_error_p, h0]
  · simp [logistic_error_logp, h0, boolVal]
  · simp [logistic_error_p, h200]
  · have h1 : ¬ ((0 : ℝ) < -100) := by norm_num
    have h2 : ¬ ((100 : ℝ) < 0) := by norm_num
    rw [spec_saturated_logistic, if_neg h1, if_neg h2, hexp]
    norm_num
  · rw [logistic_prob, if_pos h0, hexp]
    norm_num

/-! ## Claim C4 -/

/-- C4 counterexample: the claim says that for `a ≠ b` the combiner
returns exactly `max a b + ln (1 + e^(min a b - max a b))`.  At `a = 0`,
`b = -60` the source takes its cut-off branch (`vmin + 50 < vmax`) and
returns `vmax = 0` exactly, while the claimed expression is strictly
positive. -/
theorem C4_counterexample_cutoff :
    logsumexp 0 (-60) false = 0 ∧
    max (0 : ℝ) (-60) + Real.log (1 + Real.exp (min (0 : ℝ) (-60) - max (0 : ℝ) (-60))) ≠ 0 := by
  constructor
  · have hne : (0 : ℝ) ≠ -60 := by norm_num
    have hlt : ¬ ((0 : ℝ) < -60) := by norm_num
    have hcut : (-60 : ℝ) + 50 < 0 := by norm_num
    simp only [logsumexp, Bool.false_eq_true, if_false, if_neg hne, if_neg hlt, if_pos hcut]
  · have hmax : max (0 : ℝ) (-60) = 0 := by norm_num
    have hmin : min (0 : ℝ) (-60) = -60 := by norm_num
    rw [hmax, hmin]
    have hpos : (0 : ℝ) < Real.log (1 + Real.exp (-60 - 0)) := by
      apply Real.log_pos
      have := Real.exp_pos (-60 - 0 : ℝ)
      linarith
    intro hc
    rw [zero_add] at hc
    exact absurd hc (ne_of_gt hpos)

/-- C4 amended: with the first-element flag clear, the pairwise combiner
returns `a + 0.69314718055` (the source's stored ln 2 constant) when
`a = b`; when `a ≠ b` and the gap `max - min` is at most 50 it returns
exactly `max a b + ln(e^(min a b - max a b) + 1)`, the exponential taken
only of the non-positive difference; when the gap exceeds 50 it returns
`max a b` alone.  The combiner is commutative, and at `a = 0, b = -1000`
it returns `a` exactly (no overflow is possible in the model). -/
theorem C4_logsumexp_characterization (a b : ℝ) :
    (a = b → logsumexp a b false = a + 0.69314718055) ∧
    (a ≠ b → max a b - min a b ≤ 50 →
      logsumexp a b false = max a b + Real.log (Real.exp (min a b - max a b) + 1)) ∧
    (a ≠ b → 50 < max a b - min a b → logsumexp a b false = max a b) ∧
    logsumexp a b false = logsumexp b a false ∧
    logsumexp 0 (-1000) false = 0 := by
  refine ⟨?_, ?_, ?_, ?_, ?_⟩
  · intro hab
    simp [logsumexp, hab]
  · intro hab hgap
    rcases lt_trichotomy a b with hlt | heq | hgt
    · have hmax : max a b = b := max_eq_right hlt.le
      have hmin : min a b = a := min_eq_left hlt.le
      rw [hmax, hmin] at hgap ⊢
      have hcut : ¬ (a + 50 < b) := by linarith
      simp only [logsumexp, Bool.false_eq_true, if_false, if_neg hab, if_pos hlt, if_neg hcut]
      norm_num
    · exact absurd heq hab
    · have hmax : max a b = a := max_eq_left hgt.le
      have hmin : min a b = b := min_eq_right hgt.le
      rw [hmax, hmin] at hgap ⊢
      have hnlt : ¬ (a < b) := not_lt.mpr hgt.le
      have hcut : ¬ (b + 50 < a) := by linarith
      simp only [logsumexp, Bool.false_eq_true, if_false, if_neg hab, if_neg hnlt, if_neg hcut]
      norm_num
  · intro hab hgap
    rcases lt_trichotomy a b with hlt | heq | hgt
    · have hmax : max a b = b := max_eq_right hlt.le
      have hmin : min a b = a := min_eq_left hlt.le
      rw [hmax, hmin] at hgap
      rw [hmax]
      have hcut : a + 50 < b := by linarith
      simp only [logsumexp, Bool.false_eq_true, if_false, if_neg hab, if_pos hlt, if_pos hcut]
    · exact absurd heq hab
    · have hmax : max a b = a := max_eq_left hgt.le
      have hmin : min a b = b := min_eq_right hgt.le
      rw [hmax, hmin] at hgap
      rw [hmax]
      have hnlt : ¬ (a < b) := not_lt.mpr hgt.le
      have hcut : b + 50 < a := by linarith
      simp only [logsumexp, Bool.false_eq_true, if_false, if_neg hab, if_neg hnlt, if_pos hcut]
  · rcases lt_trichotomy a b with hlt | heq | hgt
    · have hab : a ≠ b := ne_of_lt hlt
      have hba : b ≠ a := ne_of_gt hlt
      have hnlt : ¬ (b < a) := not_lt.mpr hlt.le
      simp only [logsumexp, Bool.false_eq_true, if_false, if_neg hab, if_neg hba,
        if_pos hlt, if_neg hnlt]
    · simp [logsumexp, heq]
    · have hab : a ≠ b := ne_of_gt hgt
      have hba : b ≠ a := ne_of_lt hgt
      have hnlt : ¬ (a < b) := not_lt.mpr hgt.le
      simp only [logsumexp, Bool.false_eq_true, if_false, if_neg hab, if_neg hba,
        if_neg hnlt, if_pos hgt]
  · have hne : (0 : ℝ) ≠ -1000 := by norm_num
    have hlt : ¬ ((0 : ℝ) < -1000) := by norm_num
    have hcut : (-1000 : ℝ) + 50 < 0 := by norm_num
    simp only [logsumexp, Bool.false_eq_true, if_false, if_neg hne, if_neg hlt, if_pos hcut]

/-- C4 witness: the characterization applied at `a = b = 1`. -/
theorem C4_witness : logsumexp 1 1 false = 1 + 0.69314718055 :=
  (C4_logsumexp_characterization 1 1).1 rfl

/-! ## Claim C7 -/

/-- C7 counterexample: the claim says every trainer's progress callback
returns a stop signal whenever the reported iteration count exceeds the
configured maximum.  `trainer_logress::lbfgs_progress` returns 0
unconditionally — at maximum 5 and iteration 6 it still returns 0. -/
theorem C7_counterexample_logress_never_stops :
    logress_lbfgs_progress_return 5 6 = 0 ∧ (5 : ℤ) < 6 := by
  exact ⟨rfl, by decide⟩

/-- C7 amended: `trainer_maxent::lbfgs_progress` returns nonzero exactly
when the iteration count `k` exceeds `m_maxiter` (and 0 exactly when
`k ≤ m_maxiter`); `trainer_logress::lbfgs_progress` always returns 0 and
enforces its iteration cap by handing `m_lbfgs_maxiter` to the solver
instead. -/
theorem C7_progress_stop_signals (maxiter k : ℤ) :
    (maxent_lbfgs_progress_return maxiter k ≠ 0 ↔ maxiter < k) ∧
    (maxent_lbfgs_progress_return maxiter k = 0 ↔ k ≤ maxiter) ∧
    logress_lbfgs_progress_return maxiter k = 0 := by
  unfold maxent_lbfgs_progress_return logress_lbfgs_progress_return
  by_cases h : maxiter < k
  · rw [if_pos h]
    exact ⟨by simp [h], by simp [h, not_le.mpr h], rfl⟩
  · rw [if_neg h]
    exact ⟨by simp [h], by simp [not_lt.mp h], rfl⟩

/-- C7 witness: the maxent signal at maximum 3, iteration 9. -/
theorem C7_witness : maxent_lbfgs_progress_return 3 9 ≠ 0 :=
  (C7_progress_stop_signals 3 9).1.mpr (by decide)

/-! ## Claim C3 -/

/-- C3 counterexample: the claim says at most one of c1 and c2 is nonzero
after the regularization configuration, and that selecting L2 yields
`c2 = 1/sigma^2`.  For `trainer_maxent::set`, selecting L1 with sigma 2
and then L2 with sigma 4 leaves `c1 = 1/2` and `c2 = 1/4` both nonzero,
and the L2 branch assigns `1/d`, not `1/(d*d)`. -/
theorem C3_counterexample_maxent_set_not_exclusive :
    (maxent_set_l2 4 (maxent_set_l1 2 (0, 0))).1 ≠ 0 ∧
    (maxent_set_l2 4 (maxent_set_l1 2 (0, 0))).2 ≠ 0 ∧
    (maxent_set_l2 4 (0, 0)).2 ≠ 1.0 / ((4 : ℝ) * 4) := by
  norm_num [maxent_set_l1, maxent_set_l2]

/-- C3 amended: the binary-logistic trainer's configuration is exclusive
exactly as claimed (L1 gives `(1/sigma, 0)`, L2 gives
`(0, 1/(sigma*sigma))`, anything else gives `(0, 0)`, so one of the two
constants is always zero), and no evaluator consumes c1 (the evaluator
models take no c1 argument; c1 goes to `lbfgs_solve` only).  The maxent
trainer's `set`, however, updates only the selected constant, leaving
the other untouched, and its L2 branch assigns `c2 = 1/sigma` rather than
`1/sigma^2`. -/
theorem C3_regularization_configuration (reg : String) (sigma : ℝ) (d : ℤ) (st : ℝ × ℝ) :
    ((logress_train_config reg sigma).1 = 0 ∨ (logress_train_config reg sigma).2 = 0) ∧
    (reg = "L1" → logress_train_config reg sigma = (1.0 / sigma, 0)) ∧
    (reg = "L2" → logress_train_config reg sigma = (0, 1.0 / (sigma * sigma))) ∧
    (reg ≠ "L1" → reg ≠ "l1" → reg ≠ "L2" → reg ≠ "l2" →
      logress_train_config reg sigma = (0, 0)) ∧
    ((maxent_set_l1 d st).2 = st.2) ∧
    ((maxent_set_l2 d st).1 = st.1) ∧
    (0 < d → (maxent_set_l2 d st).2 = 1.0 / (d : ℝ)) := by
  refine ⟨?_, ?_, ?_, ?_, rfl, rfl, ?_⟩
  · unfold logress_train_config
    by_cases h1 : reg = "L1" ∨ reg = "l1"
    · rw [if_pos h1]
      exact Or.inr rfl
    · rw [if_neg h1]
      by_cases h2 : reg = "L2" ∨ reg = "l2"
      · rw [if_pos h2]
        exact Or.inl rfl
      · rw [if_neg h2]
        exact Or.inl rfl
  · intro h
    simp [logress_train_config, h]
  · intro h
    simp [logress_train_config, h]
  · intro h1 h2 h3 h4
    simp [logress_train_config, h1, h2, h3, h4]
  · intro hd
    simp [maxent_set_l2, not_le.mpr hd]

/-- C3 witness: the configuration facts at concrete arguments. -/
theorem C3_witness :
    ((logress_train_config "L2" 5).1 = 0 ∨ (logress_train_config "L2" 5).2 = 0) ∧
    logress_train_config "L2" 5 = (0, 1.0 / ((5 : ℝ) * 5)) ∧
    (maxent_set_l2 3 (7, 8)).2 = 1.0 / ((3 : ℤ) : ℝ) :=
  ⟨(C3_regularization_configuration "L2" 5 3 (7, 8)).1,
   (C3_regularization_configuration "L2" 5 3 (7, 8)).2.2.1 rfl,
   (C3_regularization_configuration "L2" 5 3 (7, 8)).2.2.2.2.2.2 (by decide)⟩

/-! ## Claim C2 -/

/-- C2 counterexample: with identical settings (c2 = 1, a regularization
start of 1, K = n = 1, weights all 1), the binary-logistic evaluator adds
nothing to gradient index 0 (it lies below the start index), but the
maxent evaluator — whose L2 loop always starts at index 0 and ignores any
start index — adds `c2 * x[0] = 1` there.  The claimed shared policy is
therefore false. -/
theorem C2_counterexample_maxent_ignores_start :
    (maxent_lbfgs_evaluate [] 0 1 1 (fun _ => 1) (fun _ => 0)).2 0 = 1 ∧
    (logress_lbfgs_evaluate [] 0 1 1 1 (fun _ => 1) (fun _ => 0)).2 0 = 0 ∧
    (0 : ℕ) < 1 := by
  refine ⟨?_, ?_, by decide⟩
  · simp [maxent_lbfgs_evaluate, maxent_l2, maxent_oexps]
  · simp [logress_lbfgs_evaluate, logress_l2]

/-- C2 amended: relative to the unregularized run (c2 = 0), the
binary-logistic evaluator adds `c2 * x[i]` to gradient[i] exactly for
`regularization_start ≤ i < K` and `0.5 * c2 * Σ x[i]²` over that index
range to the loss; the maxent evaluator applies the same formulas but over
all of `0 ≤ i < K` — it has no regularization start, so indices below any
configured start are penalized as well. -/
theorem C2_l2_regularization_policy (data : List BinInstance) (mdata : List MEInstance)
    (holdout : ℤ) (c2 : ℝ) (start n : ℕ) (x g0 : ℕ → ℝ) :
    ((logress_lbfgs_evaluate data holdout c2 start n x g0).1
        = (logress_lbfgs_evaluate data holdout 0 start n x g0).1
          + c2 * (∑ i ∈ Finset.Ico start n, x i * x i) * 0.5) ∧
    (∀ j, (logress_lbfgs_evaluate data holdout c2 start n x g0).2 j
        = (logress_lbfgs_evaluate data holdout 0 start n x g0).2 j
          + if start ≤ j ∧ j < n then c2 * x j else 0) ∧
    ((maxent_lbfgs_evaluate mdata holdout c2 n x g0).1
        = (maxent_lbfgs_evaluate mdata holdout 0 n x g0).1
          + c2 * (∑ i ∈ Finset.Ico 0 n, x i * x i) * 0.5) ∧
    (∀ j, (maxent_lbfgs_evaluate mdata holdout c2 n x g0).2 j
        = (maxent_lbfgs_evaluate mdata holdout 0 n x g0).2 j
          + if j < n then c2 * x j else 0) := by
  by_cases hc : c2 = 0
  · subst hc
    refine ⟨by simp, fun j => ?_, by simp, fun j => ?_⟩
    · by_cases hj : start ≤ j ∧ j < n <;> simp [hj]
    · by_cases hj : j < n <;> simp [hj]
  · refine ⟨?_, fun j => ?_, ?_, fun j => ?_⟩
    · simp [logress_lbfgs_evaluate, logress_l2, hc]
    · by_cases hj : start ≤ j ∧ j < n <;>
        simp [logress_lbfgs_evaluate, logress_l2, hc, hj]
    · simp [maxent_lbfgs_evaluate, maxent_l2, hc]
    · by_cases hj : j < n <;>
        simp [maxent_lbfgs_evaluate, maxent_l2, hc, hj]

/-- C2 witness: the loss formula at concrete arguments. -/
theorem C2_witness :
    (logress_lbfgs_evaluate [] 0 1 0 1 (fun _ => 1) (fun _ => 0)).1
      = (logress_lbfgs_evaluate [] 0 0 0 1 (fun _ => 1) (fun _ => 0)).1
        + 1 * (∑ _i ∈ Finset.Ico 0 1, (1 : ℝ) * 1) * 0.5 :=
  (C2_l2_regularization_policy [] [] 0 1 0 1 (fun _ => 1) (fun _ => 0)).1

/-! ## Claim C5 -/

/-- C5: instances whose group equals the holdout group contribute nothing
to the loss or gradient of either objective evaluator (removing such an
instance anywhere in the data leaves the full result unchanged), and both
holdout evaluations tally exactly the instances whose group equals the
holdout group (their tallies are functions of that sublist alone). -/
theorem C5_holdout_group_excluded
    (pre post : List BinInstance) (inst : BinInstance)
    (mpre mpost : List MEInstance) (minst : MEInstance)
    (data : List BinInstance) (mdata : List MEInstance)
    (holdout : ℤ) (c2 : ℝ) (start n : ℕ) (x g0 : ℕ → ℝ)
    (hb : inst.group = holdout) (hm : minst.group = holdout) :
    (logress_lbfgs_evaluate (pre ++ inst :: post) holdout c2 start n x g0
       = logress_lbfgs_evaluate (pre ++ post) holdout c2 start n x g0) ∧
    (maxent_lbfgs_evaluate (mpre ++ minst :: mpost) holdout c2 n x g0
       = maxent_lbfgs_evaluate (mpre ++ mpost) holdout c2 n x g0) ∧
    (logress_holdout_matrix data holdout x
       = logress_holdout_matrix (data.filter (fun i => i.group == holdout)) holdout x) ∧
    (maxent_holdout_evaluation mdata holdout x
       = maxent_holdout_evaluation (mdata.filter (fun i => i.group == holdout)) holdout x) := by
  refine ⟨?_, ?_, ?_, ?_⟩
  · have hskip : ∀ st : ℝ × (ℕ → ℝ), logress_step holdout x st inst = st :=
      fun st => by simp [logress_step, hb]
    simp only [logress_lbfgs_evaluate, List.foldl_append, List.foldl_cons, hskip]
  · have hskip : ∀ st : (ℕ → ℝ) × ℝ, maxent_step holdout x st minst = st :=
      fun st => by simp [maxent_step, hm]
    have hox : maxent_oexps (mpre ++ minst :: mpost) holdout
        = maxent_oexps (mpre ++ mpost) holdout := by
      simp only [maxent_oexps, List.foldl_append, List.foldl_cons, hm, if_pos]
    simp only [maxent_lbfgs_evaluate, List.foldl_append, List.foldl_cons, hskip, hox]
  · exact foldl_eq_foldl_filter (logress_matrix_step holdout x)
      (fun i => i.group == holdout) data (fun _ _ => 0)
      (fun s a ha => by
        have hne : a.group ≠ holdout := by simpa using ha
        simp [logress_matrix_step, hne])
  · exact foldl_eq_foldl_filter (maxent_holdout_step holdout x)
      (fun i => i.group == holdout) mdata (some (0, 0))
      (fun s a ha => by
        have hne : a.group ≠ holdout := by simpa using ha
        simp [maxent_holdout_step, hne])

/-- C5 witness: a holdout-group instance inserted into empty data changes
nothing. -/
theorem C5_witness :
    (logress_lbfgs_evaluate [⟨[(0, 1)], true, 3, 1⟩] 3 0 0 1 (fun _ => 0) (fun _ => 0)
       = logress_lbfgs_evaluate [] 3 0 0 1 (fun _ => 0) (fun _ => 0)) ∧
    (maxent_lbfgs_evaluate [⟨[candT1], 3⟩] 3 0 1 (fun _ => 0) (fun _ => 0)
       = maxent_lbfgs_evaluate [] 3 0 1 (fun _ => 0) (fun _ => 0)) ∧
    (logress_holdout_matrix [] 3 (fun _ => 0)
       = logress_holdout_matrix (List.filter (fun i => i.group == 3) []) 3 (fun _ => 0)) ∧
    (maxent_holdout_evaluation [] 3 (fun _ => 0)
       = maxent_holdout_evaluation (List.filter (fun i => i.group == 3) []) 3 (fun _ => 0)) :=
  C5_holdout_group_excluded [] [] ⟨[(0, 1)], true, 3, 1⟩ [] [] ⟨[candT1], 3⟩ [] []
    3 0 0 1 (fun _ => 0) (fun _ => 0) rfl rfl

/-! ## Claim C9 -/

/-- C9: for every weight vector and any two initial contents of the
caller-supplied gradient buffer, each objective evaluator returns the same
loss and the same gradient on every buffer index `j < n`: the buffer is
fully overwritten (zeroed by `trainer_logress::lbfgs_evaluate`, assigned
`-(oexps - mexps)` by `trainer_maxent::lbfgs_evaluate`, initialized to
`-oexps` by `trainer_lbfgs_multi::loss_and_gradient`) before any
accumulation. -/
theorem C9_gradient_buffer_independence
    (data : List BinInstance) (mdata : List MEInstance) (pdata : List MultiInstance)
    (fg : ℕ → ℕ → ℕ) (holdout : ℤ) (c2 : ℝ) (start n L : ℕ) (x g0 g0' : ℕ → ℝ) :
    ((logress_lbfgs_evaluate data holdout c2 start n x g0).1
       = (logress_lbfgs_evaluate data holdout c2 start n x g0').1) ∧
    (∀ j, j < n → (logress_lbfgs_evaluate data holdout c2 start n x g0).2 j
       = (logress_lbfgs_evaluate data holdout c2 start n x g0').2 j) ∧
    ((maxent_lbfgs_evaluate mdata holdout c2 n x g0).1
       = (maxent_lbfgs_evaluate mdata holdout c2 n x g0').1) ∧
    (∀ j, j < n → (maxent_lbfgs_evaluate mdata holdout c2 n x g0).2 j
       = (maxent_lbfgs_evaluate mdata holdout c2 n x g0').2 j) ∧
    ((multi_loss_and_gradient fg pdata holdout L n x g0).1
       = (multi_loss_and_gradient fg pdata holdout L n x g0').1) ∧
    (∀ j, j < n → (multi_loss_and_gradient fg pdata holdout L n x g0).2 j
       = (multi_loss_and_gradient fg pdata holdout L n x g0').2 j) := by
  have hLloss : ∀ g0a : ℕ → ℝ,
      (List.foldl (logress_step holdout x) (0, fun j => if j < n then 0 else g0a j) data).1
        = (List.foldl (logress_step holdout x) (0, fun _ => 0) data).1 := by
    intro g0a
    have h := (logress_fold_decomp data holdout x 0 (fun j => if j < n then 0 else g0a j)).1
    simpa using h
  have hLgrad : ∀ (g0a : ℕ → ℝ) (j : ℕ), j < n →
      (List.foldl (logress_step holdout x) (0, fun j2 => if j2 < n then 0 else g0a j2) data).2 j
        = (List.foldl (logress_step holdout x) (0, fun _ => 0) data).2 j := by
    intro g0a j hj
    have h := (logress_fold_decomp data holdout x 0 (fun j2 => if j2 < n then 0 else g0a j2)).2 j
    rw [h]
    simp [hj]
  have hMloss : ∀ g0a : ℕ → ℝ,
      (List.foldl (multi_step fg holdout L x)
          (0, fun j => if j < n then -(multi_oexps fg pdata holdout j) else g0a j) pdata).1
        = (List.foldl (multi_step fg holdout L x) (0, fun _ => 0) pdata).1 := by
    intro g0a
    have h := (multi_fold_decomp fg pdata holdout L x 0
      (fun j => if j < n then -(multi_oexps fg pdata holdout j) else g0a j)).1
    simpa using h
  have hMgrad : ∀ (g0a : ℕ → ℝ) (j : ℕ), j < n →
      (List.foldl (multi_step fg holdout L x)
          (0, fun j2 => if j2 < n then -(multi_oexps fg pdata holdout j2) else g0a j2) pdata).2 j
        = -(multi_oexps fg pdata holdout j)
          + (List.foldl (multi_step fg holdout L x) (0, fun _ => 0) pdata).2 j := by
    intro g0a j hj
    have h := (multi_fold_decomp fg pdata holdout L x 0
      (fun j2 => if j2 < n then -(multi_oexps fg pdata holdout j2) else g0a j2)).2 j
    rw [h]
    simp [hj]
  refine ⟨?_, fun j hj => ?_, ?_, fun j hj => ?_, ?_, fun j hj => ?_⟩
  · by_cases hc : c2 = 0 <;>
      simp [logress_lbfgs_evaluate, logress_l2, hc, hLloss g0, hLloss g0']
  · by_cases hc : c2 = 0
    · simp [logress_lbfgs_evaluate, logress_l2, hc, hLgrad g0 j hj, hLgrad g0' j hj]
    · by_cases hs : start ≤ j <;>
        simp [logress_lbfgs_evaluate, logress_l2, hc, hs, hj, hLgrad g0 j hj, hLgrad g0' j hj]
  · by_cases hc : c2 = 0 <;> simp [maxent_lbfgs_evaluate, maxent_l2, hc]
  · by_cases hc : c2 = 0 <;> simp [maxent_lbfgs_evaluate, maxent_l2, hc, hj]
  · simp only [multi_loss_and_gradient, hMloss g0, hMloss g0']
  · simp only [multi_loss_and_gradient, hMgrad g0 j hj, hMgrad g0' j hj]

/-- C9 witness: the loss of the binary evaluator at two different initial
buffer contents. -/
theorem C9_witness :
    (logress_lbfgs_evaluate [] 0 0 0 1 (fun _ => 1) (fun _ => 0)).1
      = (logress_lbfgs_evaluate [] 0 0 0 1 (fun _ => 1) (fun _ => 5)).1 :=
  (C9_gradient_buffer_independence [] [] [] (fun a _ => a) 0 0 0 1 1
    (fun _ => 1) (fun _ => 0) (fun _ => 5)).1

/-! ## Claim C10 -/

/-- C10 counterexample: the claim says that with at least one candidate
the invalid-iterator branch is unreachable.  A single candidate whose
score is exactly `-DBL_MAX` (weights all `-DBL_MAX`, one feature of value
1) never satisfies `score_max < score`, so `itc_max` stays at the end
iterator and holdout evaluation dereferences it (modelled `none`) although
the instance is nonempty. -/
theorem C10_counterexample_end_iterator_dereference :
    instNeg.cands ≠ [] ∧
    maxent_predict (fun _ => -DBL_MAX) instNeg = none ∧
    maxent_holdout_evaluation [instNeg] 0 (fun _ => -DBL_MAX) = none := by
  have hscore : score (fun _ => -DBL_MAX) [(0, 1)] = -DBL_MAX := by
    simp [score]
  have hsc : scoresOf (fun _ => -DBL_MAX) instNeg = [-DBL_MAX] := by
    simp [scoresOf, instNeg, candNeg, hscore]
  have hpred : maxent_predict (fun _ => -DBL_MAX) instNeg = none := by
    show ((scoresOf (fun _ => -DBL_MAX) instNeg).foldl argmax_step
      (-DBL_MAX, none, 0)).2.1 = none
    rw [hsc, foldl_argmax_eq]
    simp [amRec, lt_irrefl]
  refine ⟨by simp [instNeg], hpred, ?_⟩
  have hgr : instNeg.group = (0 : ℤ) := rfl
  simp [maxent_holdout_evaluation, maxent_holdout_step, hpred, hgr]

/-- C10 amended: whenever some candidate scores strictly above the
`-DBL_MAX` sentinel (in particular whenever the instance is nonempty and
its scores exceed the sentinel), the argmax loop of
`trainer_maxent::holdout_evaluation` selects the first candidate attaining
the maximum score — the running maximum is updated only on strict
increase, so earlier candidates beat later ties — and the invalid-iterator
branch is unreachable; with no candidate, or with candidates all scoring
at or below `-DBL_MAX`, the end iterator is dereferenced. -/
theorem C10_argmax_selects_first_maximum (inst : MEInstance) (x : ℕ → ℝ)
    (h : ∃ s ∈ scoresOf x inst, -DBL_MAX < s) :
    ∃ j, j < inst.cands.length ∧ maxent_predict x inst = some j ∧
      (∀ i, i < inst.cands.length →
        (scoresOf x inst).getD i 0 ≤ (scoresOf x inst).getD j 0) ∧
      (∀ i, i < j → (scoresOf x inst).getD i 0 < (scoresOf x inst).getD j 0) := by
  obtain ⟨j, hjlen, heq, _, hmax, hfst⟩ :=
    amRec_first_argmax (scoresOf x inst) (-DBL_MAX) none 0 h
  have hlen : (scoresOf x inst).length = inst.cands.length := by simp [scoresOf]
  refine ⟨j, by omega, ?_, fun i hi => hmax i (by omega), hfst⟩
  show ((scoresOf x inst).foldl argmax_step (-DBL_MAX, none, 0)).2.1 = some j
  rw [foldl_argmax_eq, heq]
  simp

/-- C10 witness: the argmax characterization on a one-candidate instance
of score 0. -/
theorem C10_witness :
    ∃ j, j < instW.cands.length ∧ maxent_predict (fun _ => 1) instW = some j ∧
      (∀ i, i < instW.cands.length →
        (scoresOf (fun _ => 1) instW).getD i 0 ≤ (scoresOf (fun _ => 1) instW).getD j 0) ∧
      (∀ i, i < j →
        (scoresOf (fun _ => 1) instW).getD i 0 < (scoresOf (fun _ => 1) instW).getD j 0) :=
  C10_argmax_selects_first_maximum instW (fun _ => 1)
    ⟨0, by simp [scoresOf, instW, score], by rw [DBL_MAX]; norm_num⟩

/-! ## Claim C6 -/

/-- C6 counterexample: the claim says holdout evaluation tallies a
confusion matrix over (true, predicted) label pairs and reports micro
precision/recall/F1 besides accuracy.  `trainer_maxent::holdout_evaluation`
keeps only (num_correct, num_total): the two datasets below produce the
identical tally `some (1, 2)` although their (true, predicted) label pairs
— hence any confusion matrix or micro metric over them — differ, so the
maxent report cannot contain that information. -/
theorem C6_counterexample_maxent_reports_accuracy_only :
    maxent_holdout_evaluation dataA 0 (fun _ => 0)
        = maxent_holdout_evaluation dataB 0 (fun _ => 0) ∧
    spec_confusion_pairs dataA 0 (fun _ => 0) ≠ spec_confusion_pairs dataB 0 (fun _ => 0) := by
  have hd : -DBL_MAX < (0 : ℝ) := by rw [DBL_MAX]; norm_num
  have h00 : ¬ ((0 : ℝ) < 0) := lt_irrefl 0
  have hpred : ∀ (c1 c2 : Candidate) (gr : ℤ), c1.features = [] → c2.features = [] →
      maxent_predict (fun _ => 0) ⟨[c1, c2], gr⟩ = some 0 := by
    intro c1 c2 gr h1 h2
    show ((scoresOf (fun _ => 0) ⟨[c1, c2], gr⟩).foldl argmax_step
      (-DBL_MAX, none, 0)).2.1 = some 0
    have hsc : scoresOf (fun _ => 0) ⟨[c1, c2], gr⟩ = [0, 0] := by
      simp [scoresOf, score, h1, h2]
    rw [hsc, foldl_argmax_eq]
    simp [amRec, hd, h00]
  have hTP : maxent_predict (fun _ => 0) instTP = some 0 := hpred candT1 candF0 0 rfl rfl
  have hFP : maxent_predict (fun _ => 0) instFP = some 0 := hpred candF1 candT0 0 rfl rfl
  have hFN : maxent_predict (fun _ => 0) instFN = some 0 := hpred candF0 candT1 0 rfl rfl
  have e1 : instTP.group = (0 : ℤ) := rfl
  have e2 : instFP.group = (0 : ℤ) := rfl
  have e3 : instFN.group = (0 : ℤ) := rfl
  have e4 : instTP.cands = [candT1, candF0] := rfl
  have e5 : instFP.cands = [candF1, candT0] := rfl
  have e6 : instFN.cands = [candF0, candT1] := rfl
  have t1 : candT1.truth = true := rfl
  have t2 : candF0.truth = false := rfl
  have t3 : candF1.truth = false := rfl
  have t4 : candT0.truth = true := rfl
  have l1 : candT1.label = 1 := rfl
  have l2 : candF0.label = 0 := rfl
  have l3 : candF1.label = 1 := rfl
  have l4 : candT0.label = 0 := rfl
  constructor
  · simp [maxent_holdout_evaluation, maxent_holdout_step, dataA, dataB,
      hTP, hFP, hFN, e1, e2, e3, e4, e5, e6, t1, t2, t3, t4]
  · have hA : spec_confusion_pairs dataA 0 (fun _ => 0) = [(1, 1), (0, 1)] := by
      simp [spec_confusion_pairs, dataA, me_true_label, me_pred_label, hTP, hFP,
        e1, e2, e4, e5, t1, t2, t3, t4, l1, l2, l3, l4,
        List.find?_cons_of_pos, List.find?_cons_of_neg]
    have hB : spec_confusion_pairs dataB 0 (fun _ => 0) = [(1, 1), (1, 0)] := by
      simp [spec_confusion_pairs, dataB, me_true_label, me_pred_label, hTP, hFN,
        e1, e3, e4, e6, t1, t2, t3, t4, l1, l2, l3, l4,
        List.find?_cons_of_pos, List.find?_cons_of_neg]
    rw [hA, hB]
    decide

/-- C6 amended: `trainer_logress::holdout_evaluation` predicts by the sign
of the score (a score of exactly 0 counts as the negative label) and its
confusion matrix cell (r, l) counts exactly the holdout-group instances
with truth index r and predicted index l — accuracy and the micro
precision/recall/F1 for positive label 1 are computed from these counts by
the reporting code of `evaluation.h` (outside the source tree).
`trainer_maxent::holdout_evaluation` predicts the first candidate
attaining the maximal score but tallies only (num_correct, num_total) —
its report carries accuracy alone, no confusion matrix and no
precision/recall/F1. -/
theorem C6_holdout_prediction_and_tally (data : List BinInstance) (mdata : List MEInstance)
    (holdout : ℤ) (x : ℕ → ℝ)
    (hpred : ∀ inst ∈ mdata, inst.group = holdout → ∃ s ∈ scoresOf x inst, -DBL_MAX < s) :
    (∀ r l, logress_holdout_matrix data holdout x r l
        = countIf data (fun i => i.group = holdout ∧ truth_idx i = r ∧ pred_idx x i = l)) ∧
    (∃ c : ℕ, maxent_holdout_evaluation mdata holdout x
        = some (c, countIf mdata (fun i => i.group = holdout))) := by
  constructor
  · intro r l
    have h := logress_matrix_fold holdout x data (fun _ _ => 0) r l
    simpa [logress_holdout_matrix] using h
  · have hp : ∀ inst ∈ mdata, inst.group = holdout → ∃ j, maxent_predict x inst = some j :=
      fun inst hi hg => maxent_predict_some x inst (hpred inst hi hg)
    obtain ⟨c2, hc2⟩ := maxent_tally_fold x holdout mdata hp 0 0
    exact ⟨c2, by simpa [maxent_holdout_evaluation] using hc2⟩

/-- C6 witness: the tally characterizations at concrete data. -/
theorem C6_witness :
    (∀ r l, logress_holdout_matrix [] 0 (fun _ => 0) r l
        = countIf [] (fun i => i.group = 0 ∧ truth_idx i = r ∧ pred_idx (fun _ => 0) i = l)) ∧
    (∃ c, maxent_holdout_evaluation [instW] 0 (fun _ => 0)
        = some (c, countIf [instW] (fun i => i.group = 0))) :=
  C6_holdout_prediction_and_tally [] [instW] 0 (fun _ => 0) (by
    intro inst hi _
    have heq : inst = instW := by simpa using hi
    subst heq
    exact ⟨0, by simp [scoresOf, instW, score], by rw [DBL_MAX]; norm_num⟩)

/-! ## Claim C8 -/

/-- C8: over the tab-separated fields of a line, `read_line` fails with
`invalid_data` exactly when there is no field, or the first token (the
class/label) is empty, or — in the multi-candidate training dialect — the
class token does not begin with 'T' or 'F'; on every other line the
multi-candidate dialect records truth flag (first character 'T'), the full
first token as label, and the (name, value) pairs of the nonempty
remaining fields in input order, and the attribute dialect does the same
without the class check.  A failing line records nothing (the candidate is
created only after all checks). -/
theorem C8_read_line_error_conditions (gnv : String → String × ℝ) (fields : List String) :
    ((∃ e, read_line_multi gnv fields = Except.error e) ↔
      (fields = [] ∨ ∃ tok rest, fields = tok :: rest ∧
        (tok = "" ∨ (¬ tok.startsWith "T" ∧ ¬ tok.startsWith "F")))) ∧
    (∀ tok rest, fields = tok :: rest → tok ≠ "" → tok.startsWith "T" →
      read_line_multi gnv fields
        = Except.ok ⟨true, tok, (rest.filter (fun s => !(s == ""))).map gnv⟩) ∧
    (∀ tok rest, fields = tok :: rest → tok ≠ "" → ¬ tok.startsWith "T" → tok.startsWith "F" →
      read_line_multi gnv fields
        = Except.ok ⟨false, tok, (rest.filter (fun s => !(s == ""))).map gnv⟩) ∧
    ((∃ e, read_line_attribute gnv fields = Except.error e) ↔
      (fields = [] ∨ ∃ tok rest, fields = tok :: rest ∧ tok = "")) ∧
    (∀ tok rest, fields = tok :: rest → tok ≠ "" →
      read_line_attribute gnv fields
        = Except.ok ⟨tok, (rest.filter (fun s => !(s == ""))).map gnv⟩) := by
  refine ⟨?_, ?_, ?_, ?_, ?_⟩
  · rcases fields with _ | ⟨tok, rest⟩
    · simp [read_line_multi]
    · by_cases ht : tok = ""
      · simp [read_line_multi, ht]
      · by_cases hT : tok.startsWith "T"
        · simp [read_line_multi, ht, hT]
        · by_cases hF : tok.startsWith "F"
          · simp [read_line_multi, ht, hT, hF]
          · simp [read_line_multi, ht, hT, hF]
  · intro tok rest heq htok hT
    subst heq
    simp [read_line_multi, htok, hT]
  · intro tok rest heq htok hT hF
    subst heq
    simp [read_line_multi, htok, hT, hF]
  · rcases fields with _ | ⟨tok, rest⟩
    · simp [read_line_attribute]
    · by_cases ht : tok = ""
      · simp [read_line_attribute, ht]
      · simp [read_line_attribute, ht]
  · intro tok rest heq htok
    subst heq
    simp [read_line_attribute, htok]

/-- C8 witness: a line with no field raises the no-field error. -/
theorem C8_witness :
    ∃ e, read_line_attribute (fun s => (s, 1)) [] = Except.error e :=
  ((C8_read_line_error_conditions (fun s => (s, 1)) []).2.2.2.1).mpr (Or.inl rfl)
